import Mathlib

/-!
Shallow embedding of the multi-strategy data-acquisition engine of the
ycELO repository (scraper script): the Record model, the hit-to-Record
mapping shared by the Algolia fetchers, their key-based deduplication
maps, the pagination loops, the DOM incremental scraper's convergence
loop, the credential interceptor, and the merge/escalation orchestrator
of `main`. Network and DOM effects are modelled as explicit oracles
(response functions / input traces); JavaScript strings that may be
`undefined` are modelled as `Option String`, and JS string truthiness
(`s || t`) as emptiness tests on the character data.
-/

namespace YcElo

/-- JS string truthiness: a string is falsy exactly when it is empty. -/
def strEmpty (s : String) : Bool := s.data.isEmpty

/-- JS `s.startsWith(pre)`, on the character data. -/
def strStartsWith (s pre : String) : Bool := pre.data.isPrefixOf s.data

/-- A chain `x1 || x2 || ... || ''` over possibly-absent JS strings:
the first present, non-empty candidate, else the empty string. -/
def firstNonEmpty : List (Option String) → String
  | [] => ""
  | none :: rest => firstNonEmpty rest
  | some s :: rest => if strEmpty s then firstNonEmpty rest else s

/-- A chain `x1 || x2 || ... || null` over possibly-absent JS strings:
the first present, non-empty candidate, else absent. -/
def firstNonEmptyOpt : List (Option String) → Option String
  | [] => none
  | none :: rest => firstNonEmptyOpt rest
  | some s :: rest => if strEmpty s then firstNonEmptyOpt rest else some s

/-- The `Company` record shape produced by every strategy
(source: `type Company` in the scraper script). -/
structure Company where
  name : String
  one_liner : Option String
  profile_url : String
  logo_url : Option String
  yc_batch : Option String
  website_url : Option String
  location : Option String
deriving DecidableEq

/-- A raw Algolia hit: a loosely-typed record; only the fields the
mapping reads are modelled, each possibly absent. -/
structure Hit where
  slug : Option String
  permalink : Option String
  url : Option String
  name : Option String
  company_name : Option String
  title : Option String
  tagline : Option String
  one_liner : Option String
  description : Option String
  logo : Option String
  logo_url : Option String
  image : Option String
  batch : Option String
  yc_batch : Option String
  website : Option String
  website_url : Option String
  location : Option String
  location_city : Option String
deriving DecidableEq

/-- A hit with every field absent; concrete hits are built by overriding. -/
def emptyHit : Hit :=
  ⟨none, none, none, none, none, none, none, none, none,
   none, none, none, none, none, none, none, none, none⟩

/-- Suffix of `s` after the LAST occurrence of `pat`, or `none` if `pat`
does not occur: the effect of `replace(/^.*pat/, '')` with a greedy `.*`. -/
def afterLast (pat : List Char) : List Char → Option (List Char)
  | [] => if pat.isEmpty then some [] else none
  | c :: rest =>
    match afterLast pat rest with
    | some r => some r
    | none =>
      if pat.isPrefixOf (c :: rest) then some ((c :: rest).drop pat.length)
      else none

/-- JS `u.replace(/^.*\/companies\//, '')`: strip everything up to and
including the last occurrence of `/companies/`; unchanged if absent. -/
def stripCompaniesPrefix (u : String) : String :=
  match afterLast "/companies/".data u.data with
  | some r => String.mk r
  | none => u

/-- The slug extracted from a hit:
`(h.slug) || (h.permalink) || (h.url?.replace(/^.*\/companies\//, '') ?? '')`. -/
def hitSlug (h : Hit) : String :=
  firstNonEmpty [h.slug, h.permalink,
    some (match h.url with | some u => stripCompaniesPrefix u | none => "")]

/-- The deduplication key of a hit:
`String((hit.slug) || (hit.permalink) || (hit.url) || '')`. -/
def hitKey (h : Hit) : String :=
  firstNonEmpty [h.slug, h.permalink, h.url]

/-- Profile-URL normalization used by the Algolia fetchers:
`slug.startsWith('http') ? slug : "https://www.ycombinator.com/companies/" + slug`. -/
def normalizeSlug (slug : String) : String :=
  if strStartsWith slug "http" then slug
  else "https://www.ycombinator.com/companies/" ++ slug

/-- Profile-URL normalization used by the DOM scrapers:
`href.startsWith('http') ? href : "https://www.ycombinator.com" + href`. -/
def normalizeHref (href : String) : String :=
  if strStartsWith href "http" then href
  else "https://www.ycombinator.com" ++ href

/-- The per-hit field mapping shared by all three Algolia fetchers. -/
def hitToCompany (h : Hit) : Company where
  name := firstNonEmpty [h.name, h.company_name, h.title]
  one_liner := firstNonEmptyOpt [h.tagline, h.one_liner, h.description]
  profile_url := normalizeSlug (hitSlug h)
  logo_url := firstNonEmptyOpt [h.logo, h.logo_url, h.image]
  yc_batch := firstNonEmptyOpt [h.batch, h.yc_batch]
  website_url := firstNonEmptyOpt [h.website, h.website_url]
  location := firstNonEmptyOpt [h.location, h.location_city]

/-- The emission filter `.filter(r => r.name && r.profile_url)`. -/
def rowKept (r : Company) : Bool := !strEmpty r.name && !strEmpty r.profile_url

/-- One step of the fetchers' key→hit map:
`if (!dedup.has(key)) dedup.set(key, hit)` — insertion only when the key
is new, preserving insertion order. -/
def dedupInsert (m : List (String × Hit)) (h : Hit) : List (String × Hit) :=
  if hitKey h ∈ m.map Prod.fst then m else m ++ [(hitKey h, h)]

/-- The key→hit map accumulated over a list of raw hits. -/
def dedupAll (hits : List Hit) : List (String × Hit) :=
  hits.foldl dedupInsert []

/-- Lookup in the key→hit map. -/
def mapGet : List (String × Hit) → String → Option Hit
  | [], _ => none
  | p :: rest, k => if p.1 = k then some p.2 else mapGet rest k

/-- Mapping + filter applied to an accumulated key→hit map
(`Array.from(dedup.values()).map(...).filter(r => r.name && r.profile_url)`). -/
def rowsOfDedup (d : List (String × Hit)) : List Company :=
  ((d.map Prod.snd).map hitToCompany).filter rowKept

/-- Hit dedup + mapping + filter: what each Algolia fetcher does to its
accumulated raw hits before returning. -/
def hitsToRows (hits : List Hit) : List Company :=
  rowsOfDedup (dedupAll hits)

/-- Shape of an Algolia query response (`hits`, `nbPages`). -/
structure QueryResp where
  hits : List Hit
  nbPages : Nat
deriving DecidableEq

/-- The per-segment pagination loop of the Algolia fetchers:
`while (true) { resp = query(page); accumulate; page++; if (page >= (resp.nbPages || 1)) break }`.
The source loop has no iteration cap, so it is embedded with explicit
fuel: `.ok none` marks fuel exhaustion (the source loop still running),
`.ok (some d)` a normal break, `.error` a propagated HTTP failure. -/
def paginate (resp : Nat → Except Unit QueryResp) :
    Nat → List (String × Hit) → Nat → Except Unit (Option (List (String × Hit)))
  | 0, _, _ => .ok none
  | fuel + 1, dedup, pageNum =>
    match resp pageNum with
    | .error e => .error e
    | .ok r =>
      let d := r.hits.foldl dedupInsert dedup
      if pageNum + 1 ≥ (if r.nbPages = 0 then 1 else r.nbPages) then .ok (some d)
      else paginate resp fuel d (pageNum + 1)

/-- The outer `for (segment of segments)` loop shared by the segmented
fetcher (facet values) and the enumeration fetchers (letters/bigrams),
threading one key→hit map through every segment's pagination. -/
def runSegments (resp : String → Nat → Except Unit QueryResp) (fuel : Nat) :
    List String → List (String × Hit) → Except Unit (Option (List (String × Hit)))
  | [], dedup => .ok (some dedup)
  | seg :: rest, dedup =>
    match paginate (resp seg) fuel dedup 0 with
    | .error e => .error e
    | .ok none => .ok none
    | .ok (some d) => runSegments resp fuel rest d

/-- The Segmented Index Fetcher. `facetResult` is the outcome of the
facet-discovery query (its failure is caught and ignored in the source:
`catch { /* ignore facet discovery errors */ }`); `resp batch page` is
the response oracle for the per-facet pagination queries. -/
def fetchAllFromAlgoliaSegmentedByBatch
    (facetResult : Except Unit (List String))
    (resp : String → Nat → Except Unit QueryResp) (fuel : Nat) :
    Except Unit (Option (List Company)) :=
  let facetBatches := match facetResult with | .error _ => [] | .ok l => l
  if facetBatches.length = 0 then .ok (some [])
  else
    match runSegments resp fuel facetBatches [] with
    | .error e => .error e
    | .ok none => .ok none
    | .ok (some d) => .ok (some (rowsOfDedup d))

/-- `'abcdefghijklmnopqrstuvwxyz0123456789'.split('')`. -/
def lettersAlphabet : List String :=
  "abcdefghijklmnopqrstuvwxyz0123456789".data.map (fun c => String.mk [c])

/-- The letter-based Enumeration Fetcher. -/
def fetchAllFromAlgoliaByLetters
    (resp : String → Nat → Except Unit QueryResp) (fuel : Nat) :
    Except Unit (Option (List Company)) :=
  match runSegments resp fuel lettersAlphabet [] with
  | .error e => .error e
  | .ok none => .ok none
  | .ok (some d) => .ok (some (rowsOfDedup d))

/-- `generateBigrams()`: the cross product of the alphabet with itself. -/
def generateBigrams : List String :=
  "abcdefghijklmnopqrstuvwxyz0123456789".data.flatMap
    (fun a => "abcdefghijklmnopqrstuvwxyz0123456789".data.map (fun b => String.mk [a, b]))

/-- The bigram-based Enumeration Fetcher (`fetchAllFromAlgoliaByQueries`). -/
def fetchAllFromAlgoliaByQueries
    (resp : String → Nat → Except Unit QueryResp) (fuel : Nat) (queries : List String) :
    Except Unit (Option (List Company)) :=
  match runSegments resp fuel queries [] with
  | .error e => .error e
  | .ok none => .ok none
  | .ok (some d) => .ok (some (rowsOfDedup d))

/-! ### DOM Incremental Scraper loop (`scrapePage`)

The loop's interaction with the page is abstracted as an input trace
`env : Nat → Nat × Bool`: at iteration `i`, `(env i).1` is the
accumulator size reported after the collection pass and `(env i).2`
whether the scroll attempt found the position unchanged (a bottom hit). -/

/-- Loop-carried counters of `scrapePage`. -/
structure ScrapeState where
  stableIterations : Nat
  lastCollected : Nat
  bottomHits : Nat
deriving DecidableEq

/-- `const maxIterations = 3000`. -/
def maxIterations : Nat := 3000

/-- One iteration body of the `scrapePage` loop (counter updates only). -/
def scrapeStep (env : Nat → Nat × Bool) (s : ScrapeState) (i : Nat) : ScrapeState :=
  { stableIterations :=
      if (env i).1 = s.lastCollected then s.stableIterations + 1 else 0
    lastCollected := (env i).1
    bottomHits := if (env i).2 then s.bottomHits + 1 else s.bottomHits }

/-- The early-exit test `stableIterations > 20 && bottomHits > 10`. -/
def scrapeExit (s : ScrapeState) : Bool :=
  decide (s.stableIterations > 20) && decide (s.bottomHits > 10)

/-- The `for (i = 0; i < maxIterations; i++)` loop of `scrapePage`,
returning the number of iterations executed and the final counters. -/
def scrapeRun (env : Nat → Nat × Bool) : Nat → ScrapeState → Nat → Nat × ScrapeState
  | 0, s, count => (count, s)
  | rem + 1, s, count =>
    let s1 := scrapeStep env s count
    if scrapeExit s1 then (count + 1, s1)
    else scrapeRun env rem s1 (count + 1)

/-- Number of iterations `scrapePage`'s loop executes on a given trace. -/
def scrapeIterations (env : Nat → Nat × Bool) : Nat :=
  (scrapeRun env maxIterations ⟨0, 0, 0⟩ 0).1

/-! ### Merge/Escalation Orchestrator (`main`, credentialed path) -/

/-- One `map.set(c.profile_url, c)` on a JS `Map` modelled as an
insertion-ordered association list: an existing key keeps its position
but takes the new value; a new key is appended. -/
def mapSet (m : List (String × Company)) (c : Company) : List (String × Company) :=
  if c.profile_url ∈ m.map Prod.fst then
    m.map (fun p => if p.1 = c.profile_url then (p.1, c) else p)
  else m ++ [(c.profile_url, c)]

/-- `const map = new Map(); for (const c of l) map.set(c.profile_url, c);
Array.from(map.values())`. -/
def mergeCompanies (l : List Company) : List Company :=
  (l.foldl mapSet []).map Prod.snd

/-- What each strategy would return if invoked during one run. -/
structure StrategyResults where
  segmented : List Company
  letters : List Company
  bigrams : List Company
  domQuery : List Company

/-- Outcome of the credentialed orchestrator path, instrumented with
which fallback stages were invoked. -/
structure OrchResult where
  companies : List Company
  invokedEnumeration : Bool
  invokedDomQuery : Bool

/-- The merged set after the enumeration stage (the value of `companies`
when the `< 4000` gate is evaluated). -/
def stage1Companies (r : StrategyResults) : List Company :=
  if r.segmented.length < 2000 then
    mergeCompanies (r.segmented ++ r.letters ++ r.bigrams)
  else r.segmented

/-- The credentialed path of `main`: segmented fetch, then
`if (companies.length < 2000)` merge in both enumeration fetchers, then
`if (companies.length < 4000)` merge in the DOM Query Scraper. -/
def mainCredentialed (r : StrategyResults) : OrchResult :=
  let p1 :=
    if r.segmented.length < 2000 then
      (mergeCompanies (r.segmented ++ r.letters ++ r.bigrams), true)
    else (r.segmented, false)
  let p2 :=
    if p1.1.length < 4000 then
      (mergeCompanies (p1.1 ++ r.domQuery), true)
    else (p1.1, false)
  ⟨p2.1, p1.2, p2.2⟩

/-! ### Credential Interceptor (`captureAlgoliaCredentials`)

A request observed during the wait window. `body` models
`req.postData()` followed by `JSON.parse`: `none` = no/empty post data,
`some none` = unparseable body, `some (some l)` = parsed body whose
`requests` array has the listed `indexName` fields. -/

structure ObservedRequest where
  url : String
  appId : Option String
  apiKey : Option String
  body : Option (Option (List (Option String)))
deriving DecidableEq

/-- Containment of one character sequence inside another. -/
def containsSeq (pat : List Char) : List Char → Bool
  | [] => pat.isEmpty
  | c :: rest => pat.isPrefixOf (c :: rest) || containsSeq pat rest

/-- The URL test `/algolia\.(net|io)\/1\/(indexes|indexes\/\*\/queries)/.test(url)`
(an unanchored substring match; the second alternative extends the first,
so the test is containment of `algolia.net/1/indexes` or
`algolia.io/1/indexes`). -/
def urlMatchesAlgolia (u : String) : Bool :=
  containsSeq "algolia.net/1/indexes".data u.data ||
    containsSeq "algolia.io/1/indexes".data u.data

/-- The per-request handler body: extracts a credential bundle
`(appId, apiKey, indexName)` or skips the request (`none`). -/
def extractCreds (r : ObservedRequest) : Option (String × String × String) :=
  if !urlMatchesAlgolia r.url then none
  else
    match r.appId, r.apiKey with
    | some appId, some apiKey =>
      if strEmpty appId || strEmpty apiKey then none
      else
        match r.body with
        | some (some reqs) =>
          match reqs.head? with
          | some (some idx) => if strEmpty idx then none else some (appId, apiKey, idx)
          | _ => none
        | _ => none
    | _, _ => none

/-- The interceptor over the sequence of requests observed inside the
wait window: first qualifying request wins (`resolved` latch), later
requests are ignored; an exhausted window resolves `null`. -/
def captureAlgoliaCredentials : List ObservedRequest → Option (String × String × String)
  | [] => none
  | r :: rest =>
    match extractCreds r with
    | some c => some c
    | none => captureAlgoliaCredentials rest

/-- A response oracle whose reported page count always stays ahead of the
page cursor: `nbPages = pageNum + 2` on every request. -/
def adversarialResp : Nat → Except Unit QueryResp :=
  fun pageNum => .ok ⟨[], pageNum + 2⟩

/-- A non-qualifying observed request (no Algolia URL, no headers, no body). -/
def reqMalformed : ObservedRequest :=
  ⟨"https://example.com/page", none, none, none⟩

/-- A fully qualifying observed request. -/
def reqQualifying : ObservedRequest :=
  ⟨"https://APP-dsn.algolia.net/1/indexes/companies/query",
   some "APP", some "KEY", some (some [some "companies"])⟩

/-- A later qualifying request with a different bundle. -/
def reqLater : ObservedRequest :=
  ⟨"https://OTHER-dsn.algolia.net/1/indexes/other/query",
   some "OTHER", some "KEY2", some (some [some "other"])⟩

/-- JS-truthiness emptiness of a possibly-absent string. -/
def optEmpty : Option String → Bool
  | none => true
  | some s => strEmpty s

/-- All identifier candidates (`slug`, `permalink`, `url`) of a hit are
absent or empty. -/
def idCandidatesEmpty (h : Hit) : Bool :=
  optEmpty h.slug && (optEmpty h.permalink && optEmpty h.url)

/-- Key-level shadow of `mapSet`: the effect of one `map.set` on the key
list alone. -/
def insKey (ks : List String) (k : String) : List String :=
  if k ∈ ks then ks else ks ++ [k]

/-- A hit with no identifier candidates but a usable name. -/
def ghostHit : Hit := { emptyHit with name := some "Ghost" }

/-- A well-formed hit. -/
def acmeHit : Hit := { emptyHit with slug := some "acme", name := some "Acme" }

/-- The record `acmeHit` maps to. -/
def acmeCompany : Company :=
  ⟨"Acme", none, "https://www.ycombinator.com/companies/acme", none, none, none, none⟩

/-- Two hits sharing one deduplication key. -/
def hitWrittenFirst : Hit := { emptyHit with slug := some "acme", name := some "First" }

def hitWrittenSecond : Hit := { emptyHit with slug := some "acme", name := some "Second" }

/-- Two records sharing one canonical key. -/
def companyWrittenFirst : Company :=
  ⟨"First", none, "https://www.ycombinator.com/companies/acme", none, none, none, none⟩

def companyWrittenSecond : Company :=
  ⟨"Second", none, "https://www.ycombinator.com/companies/acme", none, none, none, none⟩

/-- The i-th key of the C6 scenario: keys are made pairwise distinct by
length, which keeps distinctness provable without string decoding. -/
def exKey (i : Nat) : String := String.mk (List.replicate i 'a')

/-- A record carrying the i-th scenario key. -/
def exCompany (i : Nat) : Company := ⟨"c", none, exKey i, none, none, none, none⟩

/-- Segmented fetch yield of the C6 scenario: 1500 records. -/
def exSegmented : List Company := (List.range 1500).map exCompany

/-- Enumeration contribution overlapping the segmented set: 900 records
whose keys all already occur in `exSegmented`. -/
def exLetters : List Company := (List.range 900).map exCompany

/-- Enumeration contribution with 600 new keys. -/
def exBigrams : List Company := (List.range 600).map (fun i => exCompany (1500 + i))

/-- The C6 scenario's strategy results (DOM query scraper would return
nothing new). -/
def exResults : StrategyResults := ⟨exSegmented, exLetters, exBigrams, []⟩

/-! ## Theorems -/

/-- **C9**: Profile-URL normalization maps the site-relative path
`/companies/acme` (DOM strategies) and the bare slug `acme` (Algolia
strategies) to `https://www.ycombinator.com/companies/acme`, and leaves
an already-absolute URL (one starting with `http`) unchanged in every
strategy. -/
theorem C9_profile_url_normalization :
    normalizeHref "/companies/acme" = "https://www.ycombinator.com/companies/acme" ∧
    normalizeSlug "acme" = "https://www.ycombinator.com/companies/acme" ∧
    ∀ u : String, strStartsWith u "http" = true →
      normalizeSlug u = u ∧ normalizeHref u = u := by
  refine ⟨by decide, by decide, ?_⟩
  intro u h
  constructor
  · simp [normalizeSlug, h]
  · simp [normalizeHref, h]

/-- **C9 witness**: the absolute-URL clause at a concrete input. -/
theorem C9_profile_url_normalization_witness :
    strStartsWith "https://example.com/x" "http" = true ∧
    normalizeSlug "https://example.com/x" = "https://example.com/x" :=
  ⟨by decide,
    (C9_profile_url_normalization.2.2 "https://example.com/x" (by decide)).1⟩

/-- **C4**: the claim that every fetch loop carries an explicit maximum
iteration count fails on the code: the per-segment pagination loop is
`while (true)` with only the data-dependent break
`pageNum >= (resp.nbPages || 1)`. Against a target whose reported page
count grows with each response (`nbPages = pageNum + 2`), the loop never
reaches its break: for every fuel bound the embedded loop is still
running (`.ok none`), and so is the whole segmented fetch. -/
theorem C4_pagination_has_no_iteration_cap :
    ∀ fuel : Nat,
      (∀ dedup pageNum,
        paginate adversarialResp fuel dedup pageNum = Except.ok none) ∧
      fetchAllFromAlgoliaSegmentedByBatch (Except.ok ["W21"])
        (fun _ => adversarialResp) fuel = Except.ok none := by
  have key : ∀ fuel dedup pageNum,
      paginate adversarialResp fuel dedup pageNum = Except.ok none := by
    intro fuel
    induction fuel with
    | zero => intro d p; rfl
    | succ n ih =>
      intro d p
      have hlt : ¬ p + 1 ≥ (if p + 2 = 0 then 1 else p + 2) := by
        simp
      simp only [paginate, adversarialResp]
      simp [hlt, ih]
  intro fuel
  refine ⟨key fuel, ?_⟩
  simp [fetchAllFromAlgoliaSegmentedByBatch, runSegments, key fuel]

/-- The iteration count of `scrapePage`'s loop never exceeds the
remaining budget. -/
theorem scrapeRun_fst_le (env : Nat → Nat × Bool) :
    ∀ rem s count, (scrapeRun env rem s count).1 ≤ count + rem := by
  intro rem
  induction rem with
  | zero => intro s count; simp [scrapeRun]
  | succ n ih =>
    intro s count
    simp only [scrapeRun]
    split
    · omega
    · have := ih (scrapeStep env s count) (count + 1)
      omega

/-- If `scrapePage`'s loop stops before exhausting its budget, the
early-exit test held at the final state. -/
theorem scrapeRun_early_exit (env : Nat → Nat × Bool) :
    ∀ rem s count, (scrapeRun env rem s count).1 < count + rem →
      scrapeExit (scrapeRun env rem s count).2 = true := by
  intro rem
  induction rem with
  | zero => intro s count h; simp [scrapeRun] at h
  | succ n ih =>
    intro s count h
    by_cases hexit : scrapeExit (scrapeStep env s count) = true
    · simp only [scrapeRun, hexit, if_true]
    · have hexit' : scrapeExit (scrapeStep env s count) = false :=
        Bool.eq_false_iff.mpr (fun hc => hexit hc)
      simp only [scrapeRun, hexit', Bool.false_eq_true, if_false] at h ⊢
      exact ih _ _ (by omega)

/-- With no bottom hits ever, the loop never exits early. -/
theorem scrapeRun_no_bottom :
    ∀ rem s count, s.bottomHits = 0 →
      (scrapeRun (fun _ => (0, false)) rem s count).1 = count + rem := by
  intro rem
  induction rem with
  | zero => intro s count _; simp [scrapeRun]
  | succ n ih =>
    intro s count h
    have hstep : (scrapeStep (fun _ => (0, false)) s count).bottomHits = 0 := by
      simp [scrapeStep, h]
    have hexit : scrapeExit (scrapeStep (fun _ => (0, false)) s count) = false := by
      simp [scrapeExit, hstep]
    simp only [scrapeRun, hexit]
    simp only [Bool.false_eq_true, if_false]
    rw [ih _ _ hstep]
    omega

/-- With the collected count changing every iteration, the stability
counter never leaves 0 after a change, so the loop never exits early. -/
theorem scrapeRun_always_changing :
    ∀ rem count s, s.lastCollected + 1 = count →
      (scrapeRun (fun i => (i, true)) rem s count).1 = count + rem := by
  intro rem
  induction rem with
  | zero => intro count s _; simp [scrapeRun]
  | succ n ih =>
    intro count s h
    have hne : count ≠ s.lastCollected := by omega
    have hstep : scrapeStep (fun i => (i, true)) s count =
        ⟨0, count, s.bottomHits + 1⟩ := by
      simp [scrapeStep, hne]
    have hexit : scrapeExit (⟨0, count, s.bottomHits + 1⟩ : ScrapeState) = false := by
      simp [scrapeExit]
    simp only [scrapeRun, hstep, hexit]
    simp only [Bool.false_eq_true, if_false]
    rw [ih (count + 1) _ (by simp)]
    omega

/-- **C5**: the DOM Incremental Scraper's loop runs at most 3000
iterations; an early exit implies both the stable-iteration count
exceeded 20 and the bottom-hit count exceeded 10; with an unchanged
accumulator and a bottom hit every iteration it exits at iteration 21
(≥ 21, below the cap); stability alone or bottom hits alone never break
the loop (it runs to the 3000 cap). -/
theorem C5_scrape_loop_termination :
    (∀ env, scrapeIterations env ≤ maxIterations) ∧
    (∀ env, scrapeIterations env < maxIterations →
      20 < (scrapeRun env maxIterations ⟨0, 0, 0⟩ 0).2.stableIterations ∧
      10 < (scrapeRun env maxIterations ⟨0, 0, 0⟩ 0).2.bottomHits) ∧
    scrapeIterations (fun _ => (0, true)) = 21 ∧
    scrapeIterations (fun _ => (0, false)) = maxIterations ∧
    scrapeIterations (fun i => (i, true)) = maxIterations := by
  refine ⟨?_, ?_, ?_, ?_, ?_⟩
  · intro env
    have := scrapeRun_fst_le env maxIterations ⟨0, 0, 0⟩ 0
    simpa [scrapeIterations] using this
  · intro env h
    have h0 : (scrapeRun env maxIterations ⟨0, 0, 0⟩ 0).1 < 0 + maxIterations := by
      simpa [scrapeIterations] using h
    have := scrapeRun_early_exit env maxIterations ⟨0, 0, 0⟩ 0 h0
    simpa [scrapeExit] using this
  · decide
  · have := scrapeRun_no_bottom maxIterations ⟨0, 0, 0⟩ 0 rfl
    simpa [scrapeIterations] using this
  · have hstep : scrapeStep (fun i => (i, true)) ⟨0, 0, 0⟩ 0 = ⟨1, 0, 1⟩ := by
      simp [scrapeStep]
    have hexit : scrapeExit (⟨1, 0, 1⟩ : ScrapeState) = false := by decide
    have h1 : scrapeIterations (fun i => (i, true)) =
        (scrapeRun (fun i => (i, true)) 2999 ⟨1, 0, 1⟩ 1).1 := by
      show (scrapeRun (fun i => (i, true)) (2999 + 1) ⟨0, 0, 0⟩ 0).1 = _
      rw [scrapeRun]
      simp [hstep, hexit]
    rw [h1, scrapeRun_always_changing 2999 1 ⟨1, 0, 1⟩ rfl]
    decide

/-- **C5 witness**: the early-exit clause at the constant
unchanged/bottom trace, where the loop exits after 21 < 3000 iterations. -/
theorem C5_scrape_loop_termination_witness :
    scrapeIterations (fun _ => (0, true)) < maxIterations ∧
    20 < (scrapeRun (fun _ => (0, true)) maxIterations ⟨0, 0, 0⟩ 0).2.stableIterations ∧
    10 < (scrapeRun (fun _ => (0, true)) maxIterations ⟨0, 0, 0⟩ 0).2.bottomHits :=
  ⟨by decide, C5_scrape_loop_termination.2.1 (fun _ => (0, true)) (by decide)⟩

/-- **C7**: the Segmented Index Fetcher returns the empty list (without
raising) when facet discovery fails or discovers zero facet values,
while an HTTP failure during per-facet pagination propagates as an
error out of the fetcher. -/
theorem C7_zero_facets_empty_http_error :
    (∀ resp fuel, fetchAllFromAlgoliaSegmentedByBatch (Except.error ()) resp fuel =
      Except.ok (some [])) ∧
    (∀ resp fuel, fetchAllFromAlgoliaSegmentedByBatch (Except.ok []) resp fuel =
      Except.ok (some [])) ∧
    (∀ b rest resp fuel, resp b 0 = Except.error () →
      fetchAllFromAlgoliaSegmentedByBatch (Except.ok (b :: rest)) resp (fuel + 1) =
        Except.error ()) := by
  refine ⟨fun resp fuel => rfl, fun resp fuel => rfl, ?_⟩
  intro b rest resp fuel h
  simp [fetchAllFromAlgoliaSegmentedByBatch, runSegments, paginate, h]

/-- **C7 witness**: concrete instances of all three clauses. -/
theorem C7_zero_facets_empty_http_error_witness :
    fetchAllFromAlgoliaSegmentedByBatch (Except.error ())
      (fun _ _ => Except.ok ⟨[], 1⟩) 5 = Except.ok (some []) ∧
    fetchAllFromAlgoliaSegmentedByBatch (Except.ok [])
      (fun _ _ => Except.ok ⟨[], 1⟩) 5 = Except.ok (some []) ∧
    fetchAllFromAlgoliaSegmentedByBatch (Except.ok ["W21"])
      (fun _ _ => Except.error ()) 1 = Except.error () :=
  ⟨C7_zero_facets_empty_http_error.1 _ 5,
   C7_zero_facets_empty_http_error.2.1 _ 5,
   C7_zero_facets_empty_http_error.2.2 "W21" [] _ 0 rfl⟩

/-- **C8**: the Credential Interceptor (modelled as a total function
over the requests observed inside the wait window, so it cannot throw
and produces exactly one outcome) resolves with the bundle of the first
qualifying request, ignoring all later requests; a request with a
missing application-id header, missing API-key header, missing or
unparseable body, or a missing/empty index name is skipped and never
yields a partial bundle; and with no qualifying request it resolves with
absence. -/
theorem C8_interceptor_first_match :
    captureAlgoliaCredentials [] = none ∧
    (∀ reqs, (∀ r ∈ reqs, extractCreds r = none) →
      captureAlgoliaCredentials reqs = none) ∧
    (∀ pre r post c, (∀ q ∈ pre, extractCreds q = none) →
      extractCreds r = some c →
      captureAlgoliaCredentials (pre ++ r :: post) = some c) ∧
    (∀ r : ObservedRequest,
      r.appId = none ∨ r.apiKey = none ∨ r.body = none ∨ r.body = some none ∨
        r.body = some (some []) ∨ (∃ rest, r.body = some (some (none :: rest))) ∨
        (∃ rest, r.body = some (some (some "" :: rest))) →
      extractCreds r = none) := by
  refine ⟨rfl, ?_, ?_, ?_⟩
  · intro reqs
    induction reqs with
    | nil => intro _; rfl
    | cons r rest ih =>
      intro h
      have hr : extractCreds r = none := h r (by simp)
      simp only [captureAlgoliaCredentials, hr]
      exact ih (fun q hq => h q (by simp [hq]))
  · intro pre
    induction pre with
    | nil =>
      intro r post c _ hr
      simp [captureAlgoliaCredentials, hr]
    | cons q pre ih =>
      intro r post c hpre hr
      have hq : extractCreds q = none := hpre q (by simp)
      simp only [List.cons_append, captureAlgoliaCredentials, hq]
      exact ih r post c (fun p hp => hpre p (by simp [hp])) hr
  · intro r h
    have he : strEmpty "" = true := rfl
    cases hu : urlMatchesAlgolia r.url with
    | false => simp [extractCreds, hu]
    | true =>
      rcases h with h | h | h | h | h | ⟨rest, h⟩ | ⟨rest, h⟩ <;>
        cases ha : r.appId <;> cases hk : r.apiKey <;>
        simp_all [extractCreds, he]

/-- **C8 witness**: a window containing a malformed request, then a
qualifying one, then a different later candidate: the first qualifying
bundle is the outcome. -/
theorem C8_interceptor_first_match_witness :
    (∀ q ∈ [reqMalformed], extractCreds q = none) ∧
    extractCreds reqQualifying = some ("APP", "KEY", "companies") ∧
    captureAlgoliaCredentials [reqMalformed, reqQualifying, reqLater] =
      some ("APP", "KEY", "companies") :=
  ⟨by decide, by decide,
    C8_interceptor_first_match.2.2.1 [reqMalformed] reqQualifying [reqLater]
      ("APP", "KEY", "companies") (by decide) (by decide)⟩

/-- **C2**: in the credentialed path, the Enumeration Fetchers run
exactly when the segmented yield is strictly below 2000, and the DOM
Query Scraper runs exactly when the merged count after the enumeration
stage is strictly below 4000; at a yield equal to a threshold no
escalation occurs, strictly below it escalation always occurs. -/
theorem C2_escalation_gates :
    ∀ r : StrategyResults,
      (mainCredentialed r).invokedEnumeration = decide (r.segmented.length < 2000) ∧
      (mainCredentialed r).invokedDomQuery =
        decide ((stage1Companies r).length < 4000) ∧
      (mainCredentialed r).companies =
        (if (stage1Companies r).length < 4000
          then mergeCompanies (stage1Companies r ++ r.domQuery)
          else stage1Companies r) := by
  intro r
  unfold mainCredentialed stage1Companies
  by_cases h1 : r.segmented.length < 2000
  · simp only [h1, if_true]
    refine ⟨by simp [h1], ?_, ?_⟩ <;> split <;> simp_all
  · simp only [h1, if_false]
    refine ⟨by simp [h1], ?_, ?_⟩ <;> split <;> simp_all

/-- **C3** fails on the code: inside a fetcher's key→hit deduplication
map, a later hit with an existing key is dropped (`if (!dedup.has(key))
dedup.set(key, hit)`), so the FIRST write survives, not the last. -/
theorem C3_counterexample :
    hitKey hitWrittenFirst = hitKey hitWrittenSecond ∧
    hitWrittenFirst ≠ hitWrittenSecond ∧
    (dedupAll [hitWrittenFirst, hitWrittenSecond]).map Prod.snd =
      [hitWrittenFirst] := by
  decide

/-- **C3 amended**: the orchestrator merge map (`map.set`) is
last-writer-wins, but each fetcher's key→hit deduplication map is
first-writer-wins: the record retained there is the first one written
for the key. -/
theorem C3_amended_write_policy :
    (∀ c1 c2 : Company, c1.profile_url = c2.profile_url →
      mergeCompanies [c1, c2] = [c2]) ∧
    (∀ h1 h2 : Hit, hitKey h1 = hitKey h2 →
      (dedupAll [h1, h2]).map Prod.snd = [h1]) := by
  constructor
  · intro c1 c2 h
    simp [mergeCompanies, mapSet, h]
  · intro h1 h2 h
    simp [dedupAll, dedupInsert, h]

/-- A string is empty in the JS sense iff it is the empty string. -/
theorem strEmpty_iff (s : String) : strEmpty s = true ↔ s = "" := by
  constructor
  · intro h
    cases s with
    | mk data =>
      cases data with
      | nil => rfl
      | cons c cs => simp [strEmpty] at h
  · intro h
    subst h
    rfl

/-- Boolean equality with the empty string agrees with `strEmpty`. -/
theorem beq_empty_eq_strEmpty (s : String) : (s == "") = strEmpty s := by
  cases hq : strEmpty s
  · have hne : s ≠ "" := fun e => by
      rw [e] at hq
      exact absurd hq (by decide)
    simp [hne]
  · rw [(strEmpty_iff s).mp hq]
    rfl

/-- The fallback chain yields an empty string exactly when every
candidate is absent or empty. -/
theorem strEmpty_firstNonEmpty (l : List (Option String)) :
    strEmpty (firstNonEmpty l) = l.all optEmpty := by
  induction l with
  | nil => rfl
  | cons a rest ih =>
    cases a with
    | none => simpa [firstNonEmpty, optEmpty] using ih
    | some s =>
      cases hq : strEmpty s
      · simp [firstNonEmpty, optEmpty, hq]
      · simp [firstNonEmpty, optEmpty, hq, ih]

/-- `mapGet` over an appended map tries the left part first. -/
theorem mapGet_append (m l : List (String × Hit)) (k : String) :
    mapGet (m ++ l) k =
      match mapGet m k with
      | some v => some v
      | none => mapGet l k := by
  induction m with
  | nil => simp [mapGet]
  | cons p rest ih =>
    by_cases hp : p.1 = k <;> simp [mapGet, hp, ih]

/-- A key is absent from `mapGet` exactly when it is not among the keys. -/
theorem mapGet_eq_none (m : List (String × Hit)) (k : String) :
    mapGet m k = none ↔ k ∉ m.map Prod.fst := by
  induction m with
  | nil => simp [mapGet]
  | cons p rest ih =>
    by_cases hp : p.1 = k
    · simp [mapGet, hp]
    · simp only [mapGet, if_neg hp, ih, List.map_cons, List.mem_cons]
      have hk : ¬ k = p.1 := fun e => hp e.symm
      simp [hk]

/-- Lookup after one insertion into the fetchers' dedup map: an
existing binding is untouched; a new key binds the hit. -/
theorem mapGet_dedupInsert (m : List (String × Hit)) (h : Hit) (k : String) :
    mapGet (dedupInsert m h) k =
      match mapGet m k with
      | some v => some v
      | none => if hitKey h = k then some h else none := by
  unfold dedupInsert
  split
  · next hmem =>
    cases hq : mapGet m k with
    | some v => simp
    | none =>
      have hk : k ∉ m.map Prod.fst := (mapGet_eq_none m k).mp hq
      have hne : hitKey h ≠ k := fun e => hk (e ▸ hmem)
      simp [hq, hne]
  · next hmem =>
    rw [mapGet_append]
    cases hq : mapGet m k with
    | some v => simp
    | none => simp [mapGet]

/-- Lookup through the whole dedup accumulation: an existing binding
survives; otherwise the first hit with the key is bound. -/
theorem mapGet_foldl_dedupInsert (hits : List Hit) :
    ∀ (m : List (String × Hit)) (k : String),
      mapGet (hits.foldl dedupInsert m) k =
        match mapGet m k with
        | some v => some v
        | none => hits.find? (fun h => hitKey h == k) := by
  induction hits with
  | nil =>
    intro m k
    simp only [List.foldl_nil]
    cases hq : mapGet m k <;> simp [hq]
  | cons h hits ih =>
    intro m k
    rw [List.foldl_cons, ih, mapGet_dedupInsert]
    cases hq : mapGet m k with
    | some v => simp
    | none =>
      by_cases he : hitKey h = k
      · simp [he, List.find?_cons_of_pos]
      · rw [List.find?_cons_of_neg]
        · simp [he]
        · simp [he]

/-- Keys of the fetchers' dedup map stay duplicate-free. -/
theorem foldl_dedupInsert_fst_nodup (hits : List Hit) :
    ∀ m : List (String × Hit), (m.map Prod.fst).Nodup →
      ((hits.foldl dedupInsert m).map Prod.fst).Nodup := by
  induction hits with
  | nil => intro m hm; simpa using hm
  | cons h hits ih =>
    intro m hm
    rw [List.foldl_cons]
    apply ih
    unfold dedupInsert
    split
    · exact hm
    · next hmem =>
      simpa [List.nodup_append, hm] using hmem

/-- Every binding of the dedup map pairs a hit with its own key. -/
theorem foldl_dedupInsert_entry (hits : List Hit) :
    ∀ m : List (String × Hit), (∀ p ∈ m, p.1 = hitKey p.2) →
      ∀ p ∈ hits.foldl dedupInsert m, p.1 = hitKey p.2 := by
  induction hits with
  | nil => intro m hm; simpa using hm
  | cons h hits ih =>
    intro m hm
    rw [List.foldl_cons]
    apply ih
    intro p hp
    unfold dedupInsert at hp
    split at hp
    · exact hm p hp
    · rcases List.mem_append.mp hp with hp | hp
      · exact hm p hp
      · simp only [List.mem_singleton] at hp
        subst hp
        rfl

/-- Under the key-binding invariant, filtering the stored hits on a key
matches filtering the key list. -/
theorem filter_snd_by_key (m : List (String × Hit))
    (hm : ∀ p ∈ m, p.1 = hitKey p.2) (k : String) :
    ((m.map Prod.snd).filter (fun h => hitKey h == k)).length =
      ((m.map Prod.fst).filter (fun s => s == k)).length := by
  induction m with
  | nil => rfl
  | cons p rest ih =>
    have hp := hm p (by simp)
    have hrest := ih (fun q hq => hm q (by simp [hq]))
    simp only [List.map_cons, List.filter_cons, hp]
    cases hq : hitKey p.2 == k <;> simp [hrest]

/-- **C10**: in every fetch pass, a hit whose `slug`, `permalink` and
`url` are all absent/empty gets the empty-string deduplication key; the
dedup map's keys are duplicate-free, so at most one identifier-less hit
survives a pass, and the survivor bound to a key is the first hit
encountered with that key. -/
theorem C10_identifierless_hits_share_key :
    (∀ h : Hit, idCandidatesEmpty h = (hitKey h == "")) ∧
    (∀ hits : List Hit, ((dedupAll hits).map Prod.fst).Nodup) ∧
    (∀ (hits : List Hit) (k : String),
      mapGet (dedupAll hits) k = hits.find? (fun h => hitKey h == k)) ∧
    (∀ hits : List Hit,
      (((dedupAll hits).map Prod.snd).filter
        (fun h => hitKey h == "")).length ≤ 1) := by
  refine ⟨?_, ?_, ?_, ?_⟩
  · intro h
    rw [beq_empty_eq_strEmpty, hitKey, strEmpty_firstNonEmpty]
    simp [idCandidatesEmpty]
  · intro hits
    exact foldl_dedupInsert_fst_nodup hits [] (by simp)
  · intro hits k
    have := mapGet_foldl_dedupInsert hits [] k
    simpa [dedupAll, mapGet] using this
  · intro hits
    unfold dedupAll
    rw [filter_snd_by_key _ (foldl_dedupInsert_entry hits [] (by simp)) ""]
    have hnd : ((hits.foldl dedupInsert []).map Prod.fst).Nodup :=
      foldl_dedupInsert_fst_nodup hits [] (by simp)
    have := List.nodup_iff_count_le_one.mp hnd ""
    simpa [List.count_eq_countP, List.countP_eq_length_filter] using this

/-- **C1** fails on the code: a hit whose identifier candidates are all
absent still passes the `r.name && r.profile_url` filter, because the
normalized profile URL is the non-empty placeholder
`https://www.ycombinator.com/companies/` — so an identifier-less hit
with a name IS emitted. -/
theorem C1_counterexample :
    idCandidatesEmpty ghostHit = true ∧
    hitsToRows [ghostHit] =
      [⟨"Ghost", none, "https://www.ycombinator.com/companies/",
        none, none, none, none⟩] := by
  decide

/-- **C1 amended**: every emitted record has a non-empty name and a
non-empty profileUrl string (so hits whose name candidates are all
absent/empty are never emitted); but a hit whose identifier candidates
are all absent/empty is still emitted, with the placeholder profile URL,
whenever it has a name. -/
theorem C1_amended_emitted_records :
    ∀ hits : List Hit, ∀ r ∈ hitsToRows hits,
      r.name ≠ "" ∧ r.profile_url ≠ "" := by
  intro hits r hr
  simp only [hitsToRows, rowsOfDedup] at hr
  have hk := (List.mem_filter.mp hr).2
  simp only [rowKept, Bool.and_eq_true] at hk
  have he : strEmpty "" = true := rfl
  constructor
  · intro e
    rw [e, he] at hk
    exact absurd hk.1 (by decide)
  · intro e
    rw [e, he] at hk
    exact absurd hk.2 (by decide)

/-- **C1 amended witness**: a well-formed hit's record is emitted with
non-empty name and profile URL. -/
theorem C1_amended_emitted_records_witness :
    acmeCompany ∈ hitsToRows [acmeHit] ∧
    acmeCompany.name ≠ "" ∧ acmeCompany.profile_url ≠ "" :=
  ⟨by decide, C1_amended_emitted_records [acmeHit] acmeCompany (by decide)⟩

/-- One `map.set` changes the key list as `insKey` does. -/
theorem mapSet_fst (m : List (String × Company)) (c : Company) :
    (mapSet m c).map Prod.fst = insKey (m.map Prod.fst) c.profile_url := by
  unfold mapSet insKey
  split
  · rw [List.map_map]
    apply List.map_congr_left
    intro p _
    dsimp
    split <;> rfl
  · simp

/-- Merging changes the key list as the fold of `insKey` does. -/
theorem foldl_mapSet_fst (l : List Company) :
    ∀ m : List (String × Company),
      (l.foldl mapSet m).map Prod.fst =
        (l.map Company.profile_url).foldl insKey (m.map Prod.fst) := by
  induction l with
  | nil => intro m; rfl
  | cons c l ih =>
    intro m
    simp only [List.foldl_cons, List.map_cons]
    rw [ih, mapSet_fst]

/-- Folding `insKey` over keys already present changes nothing. -/
theorem foldl_insKey_of_mem (l : List String) :
    ∀ ks : List String, (∀ k ∈ l, k ∈ ks) → l.foldl insKey ks = ks := by
  induction l with
  | nil => intro ks _; rfl
  | cons k l ih =>
    intro ks h
    have hk : insKey ks k = ks := by simp [insKey, h k (by simp)]
    simp only [List.foldl_cons, hk]
    exact ih ks (fun x hx => h x (by simp [hx]))

/-- Folding `insKey` over fresh, duplicate-free keys appends them all. -/
theorem foldl_insKey_of_new (l : List String) :
    ∀ ks : List String, l.Nodup → (∀ k ∈ l, k ∉ ks) →
      l.foldl insKey ks = ks ++ l := by
  induction l with
  | nil => intro ks _ _; simp
  | cons k l ih =>
    intro ks hnd h
    have hk : insKey ks k = ks ++ [k] := by simp [insKey, h k (by simp)]
    simp only [List.foldl_cons, hk]
    rw [ih (ks ++ [k]) (List.nodup_cons.mp hnd).2 ?_]
    · simp
    · intro x hx
      simp only [List.mem_append, List.mem_singleton]
      rintro (hxks | rfl)
      · exact h x (by simp [hx]) hxks
      · exact (List.nodup_cons.mp hnd).1 hx

/-- Scenario keys are pairwise distinct. -/
theorem exKey_injective : Function.Injective exKey := by
  intro i j h
  have hd := congrArg (fun s => s.data.length) h
  simpa [exKey] using hd

/-- Keys of the segmented scenario yield. -/
theorem exSegmented_keys :
    exSegmented.map Company.profile_url = (List.range 1500).map exKey := by
  simp only [exSegmented, List.map_map]
  apply List.map_congr_left
  intro a _
  rfl

/-- Keys of the overlapping enumeration contribution. -/
theorem exLetters_keys :
    exLetters.map Company.profile_url = (List.range 900).map exKey := by
  simp only [exLetters, List.map_map]
  apply List.map_congr_left
  intro a _
  rfl

/-- Keys of the fresh enumeration contribution. -/
theorem exBigrams_keys :
    exBigrams.map Company.profile_url =
      (List.range 600).map (fun i => exKey (1500 + i)) := by
  simp only [exBigrams, List.map_map]
  apply List.map_congr_left
  intro a _
  rfl

/-- Key list of the merged C6 scenario: the 1500 segmented keys followed
by the 600 fresh enumeration keys; the 900 overlapping keys collapse. -/
theorem exMerged_fst :
    (((exSegmented ++ exLetters ++ exBigrams).foldl mapSet []).map Prod.fst) =
      (List.range 1500).map exKey ++
        (List.range 600).map (fun i => exKey (1500 + i)) := by
  have hseg : ((List.range 1500).map exKey).Nodup :=
    (List.nodup_range 1500).map exKey_injective
  have hbig : ((List.range 600).map (fun i => exKey (1500 + i))).Nodup := by
    refine (List.nodup_range 600).map ?_
    intro i j hij
    have := exKey_injective hij
    omega
  have hsub : ∀ k ∈ (List.range 900).map exKey, k ∈ (List.range 1500).map exKey := by
    intro k hk
    rcases List.mem_map.mp hk with ⟨i, hi, rfl⟩
    exact List.mem_map.mpr ⟨i, List.mem_range.mpr (by
      have := List.mem_range.mp hi
      omega), rfl⟩
  have hdisj : ∀ k ∈ (List.range 600).map (fun i => exKey (1500 + i)),
      k ∉ (List.range 1500).map exKey := by
    intro k hk hk'
    rcases List.mem_map.mp hk with ⟨i, hi, rfl⟩
    rcases List.mem_map.mp hk' with ⟨j, hj, hje⟩
    have := exKey_injective hje
    have := List.mem_range.mp hj
    omega
  rw [foldl_mapSet_fst]
  simp only [List.map_append, List.foldl_append, List.map_nil]
  rw [exSegmented_keys, exLetters_keys, exBigrams_keys]
  rw [foldl_insKey_of_new _ [] hseg (by simp)]
  simp only [List.nil_append]
  rw [foldl_insKey_of_mem _ _ hsub]
  rw [foldl_insKey_of_new _ _ hbig hdisj]

/-- Merged record count of the C6 scenario. -/
theorem exMerged_length :
    (mergeCompanies (exSegmented ++ exLetters ++ exBigrams)).length = 2100 := by
  rw [mergeCompanies, List.length_map]
  have h := congrArg List.length exMerged_fst
  rw [List.length_map] at h
  rw [h, List.length_append, List.length_map, List.length_map,
    List.length_range, List.length_range]

/-- The enumeration stage of the C6 scenario merges to 2100 records. -/
theorem stage1_exResults :
    stage1Companies exResults = mergeCompanies (exSegmented ++ exLetters ++ exBigrams) := by
  have h1 : exResults.segmented.length < 2000 := by
    simp only [exResults, exSegmented, List.length_map, List.length_range]
    decide
  rw [stage1Companies, if_pos h1]
  simp only [exResults]

/-- Every binding of the orchestrator merge map pairs a record with its
own canonical key. -/
theorem foldl_mapSet_entry (l : List Company) :
    ∀ m : List (String × Company), (∀ p ∈ m, p.1 = p.2.profile_url) →
      ∀ p ∈ l.foldl mapSet m, p.1 = p.2.profile_url := by
  induction l with
  | nil => intro m hm; simpa using hm
  | cons c l ih =>
    intro m hm
    rw [List.foldl_cons]
    apply ih
    intro p hp
    unfold mapSet at hp
    split at hp
    · rcases List.mem_map.mp hp with ⟨q, hq, rfl⟩
      split
      · next hqe => simpa using hqe
      · exact hm q hq
    · rcases List.mem_append.mp hp with hp | hp
      · exact hm p hp
      · simp only [List.mem_singleton] at hp
        subst hp
        rfl

/-- Under the key-binding invariant, reading keys off the stored records
recovers the key list. -/
theorem snd_map_profile (m : List (String × Company))
    (hm : ∀ p ∈ m, p.1 = p.2.profile_url) :
    (m.map Prod.snd).map Company.profile_url = m.map Prod.fst := by
  induction m with
  | nil => rfl
  | cons p rest ih =>
    have hp := hm p (by simp)
    simp only [List.map_cons]
    rw [ih (fun q hq => hm q (by simp [hq])), hp]

/-- Merging records with fresh, duplicate-free canonical keys appends
all their bindings. -/
theorem foldl_mapSet_of_new (l : List Company) :
    ∀ m : List (String × Company), (l.map Company.profile_url).Nodup →
      (∀ c ∈ l, c.profile_url ∉ m.map Prod.fst) →
      l.foldl mapSet m = m ++ l.map (fun c => (c.profile_url, c)) := by
  induction l with
  | nil => intro m _ _; simp
  | cons c l ih =>
    intro m hnd h
    have hc : mapSet m c = m ++ [(c.profile_url, c)] := by
      simp [mapSet, h c (by simp)]
    simp only [List.foldl_cons, hc]
    have hnd2 := hnd
    rw [List.map_cons, List.nodup_cons] at hnd2
    rw [ih (m ++ [(c.profile_url, c)]) hnd2.2 ?_]
    · simp
    · intro x hx
      simp only [List.map_append, List.mem_append, List.map_cons, List.map_nil,
        List.mem_singleton]
      rintro (hxm | heq)
      · exact h x (by simp [hx]) hxm
      · exact hnd2.1 (List.mem_map.mpr ⟨x, hx, heq⟩)

/-- Merging a list whose canonical keys are duplicate-free returns the
list unchanged (so the orchestrator merge is idempotent on its output). -/
theorem mergeCompanies_self (l : List Company)
    (h : (l.map Company.profile_url).Nodup) : mergeCompanies l = l := by
  rw [mergeCompanies, foldl_mapSet_of_new l [] h (by simp)]
  simp only [List.nil_append, List.map_map]
  have hc : (Prod.snd ∘ fun c : Company => (c.profile_url, c)) = id := rfl
  rw [hc, List.map_id]

/-- Closed form of the credentialed orchestrator: final set and
instrumentation flags expressed through the stage-1 merge. -/
theorem mainCredentialed_eval (r : StrategyResults) :
    mainCredentialed r =
      ⟨if (stage1Companies r).length < 4000
        then mergeCompanies (stage1Companies r ++ r.domQuery)
        else stage1Companies r,
       decide (r.segmented.length < 2000),
       decide ((stage1Companies r).length < 4000)⟩ := by
  unfold mainCredentialed stage1Companies
  by_cases h1 : r.segmented.length < 2000 <;>
    simp only [h1, if_true, if_false] <;>
    split <;> simp_all

/-- Evaluation of the credentialed orchestrator on the C6 scenario: both
gates open (1500 < 2000 and 2100 < 4000). -/
theorem mainCredentialed_exResults :
    mainCredentialed exResults =
      ⟨mergeCompanies
        (mergeCompanies (exSegmented ++ exLetters ++ exBigrams) ++ []),
       true, true⟩ := by
  have hdom : exResults.domQuery = ([] : List Company) := by
    simp only [exResults]
  have h1 : exResults.segmented.length < 2000 := by
    simp only [exResults, exSegmented, List.length_map, List.length_range]
    decide
  have hq : (stage1Companies exResults).length < 4000 := by
    rw [stage1_exResults, exMerged_length]
    decide
  rw [mainCredentialed_eval, if_pos hq, decide_eq_true h1, decide_eq_true hq,
    stage1_exResults, hdom]

/-- Canonical keys of the C6 merged stage are duplicate-free. -/
theorem exMerged_keys_nodup :
    ((mergeCompanies (exSegmented ++ exLetters ++ exBigrams)).map
      Company.profile_url).Nodup := by
  have hinv := foldl_mapSet_entry (exSegmented ++ exLetters ++ exBigrams) []
    (by simp)
  rw [mergeCompanies, snd_map_profile _ hinv, exMerged_fst]
  have hseg : ((List.range 1500).map exKey).Nodup :=
    (List.nodup_range 1500).map exKey_injective
  have hbig : ((List.range 600).map (fun i => exKey (1500 + i))).Nodup := by
    refine (List.nodup_range 600).map ?_
    intro i j hij
    have := exKey_injective hij
    omega
  rw [List.nodup_append]
  refine ⟨hseg, hbig, ?_⟩
  intro k hk hk'
  rcases List.mem_map.mp hk with ⟨j, hj, rfl⟩
  rcases List.mem_map.mp hk' with ⟨i, hi, hie⟩
  have := exKey_injective hie
  have := List.mem_range.mp hj
  omega

/-- **C6** fails on the code: with a 1500-record segmented yield and
enumeration results contributing 600 new plus 900 overlapping keys, the
merged count is 2100 — but the credentialed DOM-query gate is `< 4000`,
not `≥ 2000`, so the DOM Query Scraper IS invoked at 2100. -/
theorem C6_counterexample :
    exSegmented.length = 1500 ∧ exLetters.length = 900 ∧
    exBigrams.length = 600 ∧
    (stage1Companies exResults).length = 2100 ∧
    (mainCredentialed exResults).invokedDomQuery = true := by
  have hlen : (stage1Companies exResults).length = 2100 := by
    rw [stage1_exResults, exMerged_length]
  refine ⟨by simp [exSegmented], by simp [exLetters], by simp [exBigrams],
    hlen, ?_⟩
  rw [mainCredentialed_exResults]

/-- **C6 amended**: in that scenario the merged count after the
enumeration stage is 1500 + 600 = 2100 (the 900 overlapping keys
collapse), the final merged count is still 2100, and the DOM Query
Scraper is invoked — not skipped — because 2100 < 4000 (it would be
skipped only at a merged count of at least 4000). -/
theorem C6_amended_dom_invoked :
    (stage1Companies exResults).length = 2100 ∧
    (mainCredentialed exResults).companies.length = 2100 ∧
    (mainCredentialed exResults).invokedDomQuery = true := by
  have hlen : (stage1Companies exResults).length = 2100 := by
    rw [stage1_exResults, exMerged_length]
  refine ⟨hlen, ?_, ?_⟩
  · rw [mainCredentialed_exResults]
    dsimp only
    rw [List.append_nil, mergeCompanies_self _ exMerged_keys_nodup]
    exact exMerged_length
  · rw [mainCredentialed_exResults]

/-- **C3 amended witness**: both write policies at concrete colliding
records. -/
theorem C3_amended_write_policy_witness :
    mergeCompanies [companyWrittenFirst, companyWrittenSecond] =
      [companyWrittenSecond] ∧
    (dedupAll [hitWrittenFirst, hitWrittenSecond]).map Prod.snd =
      [hitWrittenFirst] :=
  ⟨C3_amended_write_policy.1 companyWrittenFirst companyWrittenSecond rfl,
   C3_amended_write_policy.2 hitWrittenFirst hitWrittenSecond rfl⟩

end YcElo
